import Mathlib

/-!
Shallow embedding of the `python-monolith` repository's core components:

* `ConfigManager` (src/shared/utils.py, lines 196-288): a dotted-key JSON
  configuration store over a nested dictionary.
* `AppDiscovery` (src/apps/launcher/main.py, lines 45-219): filesystem scan,
  keyword classification, description and port extraction, command synthesis.
* `AppRunner` (src/apps/launcher/main.py, lines 222-274): the process
  supervisor's name-to-handle registry.

Python dictionaries are modelled as association lists in insertion order:
assignment updates the first binding in place (keeping its position) or
appends a fresh binding at the end, exactly as a `dict` preserves insertion
order.  JSON values are modelled by `JVal`; the only property of a value the
translated code ever inspects is whether it `isinstance(-, dict)`, so
non-mapping JSON leaves (numbers, strings; booleans, null and arrays behave
identically to these under every translated operation) are represented by
the scalar constructors.
-/

/-- Lookup in a Python dict modelled as an association list (first binding wins;
reachable dicts never hold duplicate keys). Models `k in d` / `d[k]`. -/
def assocGet {α β : Type} [DecidableEq α] : List (α × β) → α → Option β
  | [], _ => none
  | (k0, v0) :: rest, k => if k = k0 then some v0 else assocGet rest k

/-- Python dict assignment `d[k] = v`: update the existing binding in place
(keeping its position in insertion order) or append a new binding. -/
def assocSet {α β : Type} [DecidableEq α] : List (α × β) → α → β → List (α × β)
  | [], k, v => [(k, v)]
  | (k0, v0) :: rest, k, v =>
      if k = k0 then (k0, v) :: rest else (k0, v0) :: assocSet rest k v

/-- Python `del d[k]` (a no-op here when the key is absent; the source guards
the deletion with `if keys[-1] in config`). -/
def assocDel {α β : Type} [DecidableEq α] : List (α × β) → α → List (α × β)
  | [], _ => []
  | (k0, v0) :: rest, k =>
      if k = k0 then rest else (k0, v0) :: assocDel rest k

/-- Membership test `k in d`. -/
def assocHas {α β : Type} [DecidableEq α] (m : List (α × β)) (k : α) : Bool :=
  (assocGet m k).isSome

/-- The keys of an association list are pairwise distinct — the invariant every
Python dict satisfies. -/
def keysND {α β : Type} [DecidableEq α] : List (α × β) → Bool
  | [] => true
  | (k0, _) :: rest => !(assocHas rest k0) && keysND rest

/-- JSON values as stored in `ConfigManager._config`.  `obj` is a Python dict
in insertion order; `num` and `str` are the non-mapping leaves (every
translated operation distinguishes values only by `isinstance(-, dict)`). -/
inductive JVal : Type where
  | num : Int → JVal
  | str : String → JVal
  | obj : List (String × JVal) → JVal

mutual

/-- Every dict reachable inside a value has pairwise-distinct keys: the
representation invariant of Python dictionaries. -/
def JVal.wf : JVal → Bool
  | .num _ => true
  | .str _ => true
  | .obj m => keysND m && JVal.wfList m

/-- `JVal.wf` on every value of an association list. -/
def JVal.wfList : List (String × JVal) → Bool
  | [] => true
  | (_, v) :: rest => v.wf && JVal.wfList rest

end

/-- Python `str.split(sep)` for a one-character separator, on the character
list: split at every occurrence, keeping empty segments, always returning at
least one segment. -/
def splitOnChar (sep : Char) : List Char → List (List Char)
  | [] => [[]]
  | c :: cs =>
      if c = sep then [] :: splitOnChar sep cs
      else
        match splitOnChar sep cs with
        | s :: rest => (c :: s) :: rest
        | [] => [[c]]

/-- `key.split('.')` of `ConfigManager.get`/`set`/`delete`. -/
def splitKey (key : String) : List String :=
  (splitOnChar '.' key.data).map (fun l => String.mk l)

/-- The walk of `ConfigManager.get` (src/shared/utils.py lines 239-248) from a
value: follow each segment while the current value is a dict containing it;
`none` models the `return default` branch. -/
def getPath : JVal → List String → Option JVal
  | v, [] => some v
  | v, k :: ks =>
      match v with
      | .obj m =>
          match assocGet m k with
          | some w => getPath w ks
          | none => none
      | _ => none

/-- The walk of `ConfigManager.set` (src/shared/utils.py lines 258-266) through
a dict: on each intermediate segment, a missing or non-dict binding is
overwritten with a fresh `{}` (`config[k] = {}`), then the final segment is
assigned.  The `[]` segment case cannot arise (`split` is never empty) and is
modelled as a no-op. -/
def setPath : List String → JVal → List (String × JVal) → List (String × JVal)
  | [], _, m => m
  | [k], v, m => assocSet m k v
  | k :: k2 :: rest, v, m =>
      let sub : List (String × JVal) :=
        match assocGet m k with
        | some (JVal.obj m2) => m2
        | _ => []
      assocSet m k (JVal.obj (setPath (k2 :: rest) v sub))

/-- The walk of `ConfigManager.delete` (src/shared/utils.py lines 275-284):
return unchanged as soon as an intermediate segment is missing or non-dict,
else delete the final segment if present. -/
def delPath : List String → List (String × JVal) → List (String × JVal)
  | [], m => m
  | [k], m => assocDel m k
  | k :: k2 :: rest, m =>
      match assocGet m k with
      | some (JVal.obj m2) => assocSet m k (JVal.obj (delPath (k2 :: rest) m2))
      | _ => m

/-- `ConfigManager.get(key, default)` on an in-memory state (the top-level
`_config` dict). -/
def cmGet (cfg : List (String × JVal)) (key : String) (dflt : JVal) : JVal :=
  match getPath (JVal.obj cfg) (splitKey key) with
  | some v => v
  | none => dflt

/-- `ConfigManager.set(key, value)`. -/
def cmSet (cfg : List (String × JVal)) (key : String) (v : JVal) :
    List (String × JVal) :=
  setPath (splitKey key) v cfg

/-- `ConfigManager.delete(key)`. -/
def cmDel (cfg : List (String × JVal)) (key : String) : List (String × JVal) :=
  delPath (splitKey key) cfg

/-- The state of the configuration file as `ConfigManager.load` observes it:
absent, present but undecodable (`json.JSONDecodeError`), or present and
parsed to a document. -/
inductive FileState : Type where
  | missing : FileState
  | corrupt : FileState
  | parsed : List (String × JVal) → FileState

/-- `ConfigManager.load` (src/shared/utils.py lines 216-222): the body runs
only under `if self.config_file.exists()`, so a missing file leaves the
in-memory state untouched; a decode error is caught and resets the state to
`{}`; otherwise the parsed document replaces the state.  Totality of this
function models that no exception propagates. -/
def cmLoad (fs : FileState) (cur : List (String × JVal)) : List (String × JVal) :=
  match fs with
  | .missing => cur
  | .corrupt => []
  | .parsed doc => doc

/-- `isinstance(value, dict)` on a JSON value. -/
def JVal.isObj : JVal → Bool
  | .obj _ => true
  | _ => false

/-- One segment list is an initial run of another (used to state the frame
property of `ConfigManager.set`). -/
def initSeg : List String → List String → Bool
  | [], _ => true
  | _ :: _, [] => false
  | x :: xs, y :: ys => x == y && initSeg xs ys

/-- Python `str.lower()`, character by character (this file handles ASCII
text, where `Char.toLower` and Python agree). -/
def lowerStr (s : String) : String := String.mk (s.data.map Char.toLower)

/-- A pattern is an initial run of a character list. -/
def listHasPre : List Char → List Char → Bool
  | [], _ => true
  | _ :: _, [] => false
  | p :: ps, c :: cs => p = c && listHasPre ps cs

/-- A pattern occurs somewhere in a character list (Python `pat in s`). -/
def listHasSub (pat : List Char) : List Char → Bool
  | [] => listHasPre pat []
  | c :: cs => listHasPre pat (c :: cs) || listHasSub pat cs

/-- Python substring test `pat in s`. -/
def strHasSub (s pat : String) : Bool :=
  listHasSub pat.data s.data

/-- Terminal-UI framework markers checked first by
`AppDiscovery._determine_app_type` (src/apps/launcher/main.py line 127). -/
def tuiMarkers : List String :=
  ["from textual", "import textual", "textual.app", "textual.widgets"]

/-- Graphical-UI framework markers (line 131). -/
def guiMarkers : List String :=
  ["from nicegui", "import nicegui", "nicegui", "tkinter", "pygame", "kivy",
   "pyside", "pyqt"]

/-- Command-line framework markers (line 135). -/
def cliMarkers : List String :=
  ["from typer", "import typer", "typer.typer", "@app.command",
   "click.command", "argparse.argumentparser"]

/-- Web framework markers (line 139). -/
def webMarkers : List String :=
  ["fastapi", "from fastapi", "flask", "django", "starlette"]

/-- Some marker of a list occurs in a (lowercased) text. -/
def hasMarker (cl : String) (markers : List String) : Bool :=
  markers.any (fun mk => strHasSub cl mk)

/-- `AppDiscovery._determine_app_type` (src/apps/launcher/main.py lines
122-146): lowercase the entry-file text, then test marker families in fixed
priority order (tui, gui, cli, web), fall back to the directory-structure clue
(templates/ or static/ present), else classify as a script. -/
def determineAppType (content : String) (hasTemplates hasStatic : Bool) : String :=
  let cl := lowerStr content
  if hasMarker cl tuiMarkers then "tui"
  else if hasMarker cl guiMarkers then "gui"
  else if hasMarker cl cliMarkers then "cli"
  else if hasMarker cl webMarkers then "web"
  else if hasTemplates || hasStatic then "web"
  else "script"

/-- An ASCII whitespace character as `str.strip()` removes. -/
def isPyWs (c : Char) : Bool :=
  c = ' ' || c = '\t' || c = '\n' || c = '\r' || c = '\x0b' || c = '\x0c'

/-- Python `str.strip()` (this file handles ASCII text). -/
def pyStrip (s : String) : String :=
  String.mk (((s.data.dropWhile isPyWs).reverse.dropWhile isPyWs).reverse)

/-- Python `'\n'.split` of the entry-file text into lines. -/
def splitLines (s : String) : List String :=
  (splitOnChar '\n' s.data).map (fun l => String.mk l)

/-- Python `sep.join(parts)`. -/
def joinSep (sep : String) : List String → String
  | [] => ""
  | [s] => s
  | s :: rest => s ++ sep ++ joinSep sep rest

/-- `stripped.startswith(pat)`. -/
def strBegins (s pat : String) : Bool := listHasPre pat.data s.data

/-- `stripped.endswith(pat)`. -/
def strFinishes (s pat : String) : Bool := listHasPre pat.data.reverse s.data.reverse

/-- The triple-quote delimiter of a module docstring. -/
def tq : String := "\"\"\""

/-- `stripped[3:-3]` of a one-line docstring. -/
def sliceMid (s : String) : String :=
  String.mk ((s.data.drop 3).take (s.data.length - 6))

/-- The docstring-collection loop of `AppDiscovery._extract_description`
(src/apps/launcher/main.py lines 165-168) once `in_docstring` is set: gather
stripped lines until one ends with the triple quote. -/
def collectDoc : List String → List String
  | [] => []
  | line :: rest =>
      let st := pyStrip line
      if strFinishes st tq then [] else st :: collectDoc rest

/-- Outcome of the docstring scan of `_extract_description`: an immediate
one-line return, the collected multi-line docstring body, or no docstring. -/
inductive DocResult : Type where
  | inline : String → DocResult
  | collected : List String → DocResult
  | noDoc : DocResult

/-- The first loop of `AppDiscovery._extract_description` (src/apps/launcher/
main.py lines 156-168). -/
def findDoc : List String → DocResult
  | [] => .noDoc
  | line :: rest =>
      let st := pyStrip line
      if strBegins st tq then
        if strFinishes st tq && st.data.length > 6 then .inline (pyStrip (sliceMid st))
        else .collected (collectDoc rest)
      else findDoc rest

/-- The comment fallback of `_extract_description` (lines 174-177): the first
stripped line starting with `#` and longer than two characters. -/
def firstComment : List String → Option String
  | [] => none
  | line :: rest =>
      let st := pyStrip line
      if strBegins st "#" && st.data.length > 2 then
        some (pyStrip (String.mk (st.data.drop 1)))
      else firstComment rest

/-- `AppDiscovery._extract_description` (src/apps/launcher/main.py lines
148-179). -/
def extractDescription (content : String) : String :=
  let lines := splitLines content
  let fallback :=
    match firstComment lines with
    | some c => c
    | none => "Python application"
  match findDoc lines with
  | .inline s => s
  | .collected ls => if ls.isEmpty then fallback else pyStrip (joinSep " " ls)
  | .noDoc => fallback

/-- A character of the regex class `[=\s]` (the `port[=\s]*` separator run). -/
def isEqWs (c : Char) : Bool :=
  c = '=' || c = ' ' || c = '\t' || c = '\n' || c = '\r' ||
    c = '\x0b' || c = '\x0c'

/-- `\d` of the port regexes (ASCII decimal digits). -/
def isDig (c : Char) : Bool := '0' ≤ c && c ≤ '9'

/-- The integer value of a captured `\d+` group (Python `int(matches[0])`,
which cannot fail on a digit run). -/
def digitsVal (ds : List Char) : Nat :=
  List.foldl (fun n c => n * 10 + (c.toNat - 48)) 0 ds

/-- The anchored subpattern `port[=\s]*(\d+)` shared by the first three port
regexes of `AppDiscovery._extract_port` (src/apps/launcher/main.py lines
186-189), applied at the head of a lowercased character list.  `[=\s]*` is
greedy and its class excludes digits, so the pattern matches here exactly when
at least one digit follows the maximal separator run, capturing the maximal
digit run. -/
def portAfter (cs : List Char) : Option Nat :=
  if listHasPre "port".data cs then
    let rest := (cs.drop 4).dropWhile isEqWs
    let ds := rest.takeWhile isDig
    if ds.isEmpty then none else some (digitsVal ds)
  else none

/-- Pattern `port[=\s]*(\d+)`: the leftmost match wins (`re.findall` scans left
to right and the code takes `matches[0]`). -/
def scanP1 : List Char → Option Nat
  | [] => none
  | c :: cs =>
      match portAfter (c :: cs) with
      | some n => some n
      | none => scanP1 cs

/-- The tail `[^)]*port[=\s]*(\d+)` of the second pattern: `[^)]*` is greedy
with backtracking, so the rightmost start position whose prefix contains no
closing parenthesis and at which `port[=\s]*(\d+)` matches provides the
capture. -/
def runInner : List Char → Option Nat
  | [] => none
  | c :: cs =>
      if c = ')' then none
      else
        match runInner cs with
        | some n => some n
        | none => portAfter (c :: cs)

/-- Pattern `\.run\([^)]*port[=\s]*(\d+)` (line 188), leftmost match first. -/
def scanP2 : List Char → Option Nat
  | [] => none
  | c :: cs =>
      if listHasPre ".run(".data (c :: cs) then
        match runInner ((c :: cs).drop 5) with
        | some n => some n
        | none => scanP2 cs
      else scanP2 cs

/-- Pattern `--port[=\s]*(\d+)` (line 189), leftmost match first. -/
def scanP3 : List Char → Option Nat
  | [] => none
  | c :: cs =>
      if listHasPre "--".data (c :: cs) then
        match portAfter ((c :: cs).drop 2) with
        | some n => some n
        | none => scanP3 cs
      else scanP3 cs

/-- The tail `:(\d+)` of the fourth pattern, anchored. -/
def colonDigits : List Char → Option Nat
  | ':' :: rest =>
      let ds := rest.takeWhile isDig
      if ds.isEmpty then none else some (digitsVal ds)
  | _ => none

/-- The tail `.*:(\d+)` of the fourth pattern: `.*` (greedy, not crossing a
newline) backtracks to the rightmost colon-digits occurrence on the line. -/
def dotStarColon : List Char → Option Nat
  | [] => none
  | c :: cs =>
      if c = '\n' then none
      else
        match dotStarColon cs with
        | some n => some n
        | none => colonDigits (c :: cs)

/-- Pattern `uvicorn.*:(\d+)` (line 190), leftmost match first. -/
def scanP4 : List Char → Option Nat
  | [] => none
  | c :: cs =>
      if listHasPre "uvicorn".data (c :: cs) then
        match dotStarColon ((c :: cs).drop 7) with
        | some n => some n
        | none => scanP4 cs
      else scanP4 cs

/-- `AppDiscovery._extract_port` (src/apps/launcher/main.py lines 181-201):
try the four patterns in order against the full text and return the first
pattern's first match's first captured group.  `re.IGNORECASE` only affects
the literal letters of the patterns, so it is modelled by lowercasing the
text; the `int` conversion of a digit capture cannot raise, so the
`except ValueError: continue` branch is unreachable. -/
def extractPort (content : String) : Option Nat :=
  let cs := (lowerStr content).data
  match scanP1 cs with
  | some n => some n
  | none =>
      match scanP2 cs with
      | some n => some n
      | none =>
          match scanP3 cs with
          | some n => some n
          | none => scanP4 cs

/-- `AppDiscovery._generate_command` (src/apps/launcher/main.py lines
203-219) for an application directory named `name` directly under `apps/`
(`relative_path` is `apps/<name>`, so `str(relative_path).replace('/', '.')`
is `apps.<name>`).  For a web app the source re-reads the entry file; the scan
is modelled against a stable filesystem, so the same text is used. -/
def generateCommand (name appType content : String) : String :=
  if appType = "web" then
    if strHasSub (lowerStr content) "fastapi" then
      "uv run uvicorn apps." ++ name ++ ".main:app --reload"
    else "uv run python -m apps." ++ name ++ ".main"
  else if appType = "cli" || appType = "tui" || appType = "gui" then
    "uv run python -m apps." ++ name ++ ".main"
  else "uv run python apps/" ++ name ++ "/main.py"

/-- The `AppInfo` dataclass (src/apps/launcher/main.py lines 33-42), with
filesystem paths rendered relative to the project root. -/
structure AppInfo : Type where
  name : String
  path : String
  type : String
  mainFile : String
  description : String
  command : String
  port : Option Nat
deriving DecidableEq

/-- One immediate subdirectory of the `apps/` directory as `discover_apps`
iterates it: its name, whether `main.py` exists, the text of `main.py`
(`none` models a read or decode failure), and the `templates/`/`static/`
subdirectory clues. -/
structure AppDirEntry : Type where
  name : String
  hasMainFile : Bool
  mainContent : Option String
  hasTemplatesDir : Bool
  hasStaticDir : Bool
deriving DecidableEq

/-- One `*.py` file of the `scripts/` directory (so its filename is
`<stem>.py`), with `none` modelling a read failure. -/
structure ScriptEntry : Type where
  stem : String
  content : Option String
deriving DecidableEq

/-- The filesystem state one discovery scan observes: the subdirectories of
`apps/` in iteration order and the `*.py` files of `scripts/` in glob order
(an absent directory is an empty list). -/
structure MonoFS : Type where
  appsDirs : List AppDirEntry
  scripts : List ScriptEntry

/-- `AppDiscovery._analyze_app` (src/apps/launcher/main.py lines 76-102):
skip the directory when `main.py` is missing; a read failure is caught and
skipped; otherwise classify, describe, build the command, and extract a port
only for web apps. -/
def analyzeApp (e : AppDirEntry) : Option AppInfo :=
  if e.hasMainFile then
    match e.mainContent with
    | none => none
    | some content =>
        let t := determineAppType content e.hasTemplatesDir e.hasStaticDir
        some
          { name := e.name
            path := "apps/" ++ e.name
            type := t
            mainFile := "apps/" ++ e.name ++ "/main.py"
            description := extractDescription content
            command := generateCommand e.name t content
            port := if t = "web" then extractPort content else none }
  else none

/-- `AppDiscovery._analyze_script` (src/apps/launcher/main.py lines 104-120). -/
def analyzeScript (s : ScriptEntry) : Option AppInfo :=
  match s.content with
  | none => none
  | some content =>
      some
        { name := s.stem
          path := "scripts"
          type := "script"
          mainFile := "scripts/" ++ s.stem ++ ".py"
          description := extractDescription content
          command := "uv run python scripts/" ++ s.stem ++ ".py"
          port := none }

/-- Python string `<` : lexicographic comparison of code points. -/
def strLt : List Char → List Char → Bool
  | [], [] => false
  | [], _ :: _ => true
  | _ :: _, [] => false
  | a :: as, b :: bs => if a = b then strLt as bs else decide (a < b)

/-- The sort key comparison of `discover_apps` (src/apps/launcher/main.py
line 74): Python tuple comparison of `(x.type, x.name)`, non-strict so that it
is the total preorder `sorted` orders by. -/
def keyLE (x y : AppInfo) : Bool :=
  if x.type.data = y.type.data then
    strLt x.name.data y.name.data || x.name.data == y.name.data
  else strLt x.type.data y.type.data

/-- The relation `keyLE` as a proposition, for the sort. -/
def keyLEP (x y : AppInfo) : Prop := keyLE x y = true

instance : DecidableRel keyLEP := fun x y => by
  unfold keyLEP
  infer_instance

/-- The descriptors the `apps/` loop of `discover_apps` collects (src/apps/
launcher/main.py lines 57-63): every subdirectory except `__pycache__`,
analyzed, failures skipped. -/
def discoveredApps (fs : MonoFS) : List AppInfo :=
  (fs.appsDirs.filter (fun e => e.name ≠ "__pycache__")).filterMap analyzeApp

/-- The descriptors the `scripts/` loop collects (lines 66-72): every `*.py`
file except `__init__.py`, analyzed, failures skipped. -/
def discoveredScripts (fs : MonoFS) : List AppInfo :=
  (fs.scripts.filter (fun s => s.stem ≠ "__init__")).filterMap analyzeScript

/-- `AppDiscovery.discover_apps` (src/apps/launcher/main.py lines 52-74):
analyze each `apps/` subdirectory except `__pycache__` that has an entry file,
then each `scripts/*.py` except `__init__.py`, and return the results sorted
by `(type, name)`.  Python's `sorted` is a stable ascending sort, modelled by
insertion sort on the non-strict key order. -/
def discoverApps (fs : MonoFS) : List AppInfo :=
  List.insertionSort keyLEP (discoveredApps fs ++ discoveredScripts fs)

/-- The state of `AppRunner` (src/apps/launcher/main.py lines 222-274):
`running_processes` is the name-to-handle dict; spawned child processes are
modelled by a counter handing out fresh process identities and a liveness
table (a process of this model stays alive until the supervisor stops it,
modelling a child that has not exited on its own). -/
structure SupState : Type where
  nextPid : Nat
  procs : List (Nat × Bool)
  handles : List (String × Nat)
deriving DecidableEq

/-- A fresh `AppRunner` (`self.running_processes = {}`). -/
def initSup : SupState := ⟨0, [], []⟩

/-- `AppRunner.run_app` (src/apps/launcher/main.py lines 229-254): on a
successful spawn, register the new process under the descriptor name
(`self.running_processes[app_info.name] = process`) — overwriting any prior
binding; on a spawn failure the `RuntimeError` propagates before the
registration, leaving the state unchanged. -/
def runApp (ok : Bool) (name : String) (s : SupState) : SupState × Option Nat :=
  if ok then
    ({ nextPid := s.nextPid + 1
       procs := (s.nextPid, true) :: s.procs
       handles := assocSet s.handles name s.nextPid }, some s.nextPid)
  else (s, none)

/-- `AppRunner.stop_app` (src/apps/launcher/main.py lines 256-268): when a
handle is registered, terminate (escalating to kill on timeout — either way
the process ends up dead), remove the handle, and return true; otherwise
return false.  Totality models that no exception escapes. -/
def stopApp (name : String) (s : SupState) : SupState × Bool :=
  match assocGet s.handles name with
  | some pid =>
      ({ s with
          procs := assocSet s.procs pid false
          handles := assocDel s.handles name }, true)
  | none => (s, false)

/-- Whether a process of the model is still running (`poll() is None`). -/
def isLive (s : SupState) (pid : Nat) : Bool :=
  (assocGet s.procs pid).getD false

/-- `AppRunner.is_running` (src/apps/launcher/main.py lines 270-274). -/
def isRunningApp (s : SupState) (name : String) : Bool :=
  match assocGet s.handles name with
  | some pid => isLive s pid
  | none => false

/-- The supervisor state after starting `alpha` once from a fresh supervisor. -/
def supEx1 : SupState := (runApp true "alpha" initSup).1

/-- The supervisor state after starting `alpha` a second time. -/
def supEx2 : SupState := (runApp true "alpha" supEx1).1

/-- A filesystem holding an application directory `demo` and a script file
`demo.py`: both survive analysis under the same descriptor name. -/
def fsC5 : MonoFS :=
  ⟨[⟨"demo", true, some "x = 1", false, false⟩], [⟨"demo", some "y = 2"⟩]⟩

/-- A web application whose text matches `port=0`. -/
def fsC6 : MonoFS :=
  ⟨[⟨"site", true, some "from fastapi\nport=0", false, false⟩], []⟩

/-- A web application whose text matches `port=8000`. -/
def fsC6w : MonoFS :=
  ⟨[⟨"site", true, some "from fastapi\nport=8000", false, false⟩], []⟩

/-- The descriptor the scan of `fsC6w` produces. -/
def dC6w : AppInfo :=
  ⟨"site", "apps/site", "web", "apps/site/main.py", "Python application",
    "uv run uvicorn apps.site.main:app --reload", some 8000⟩

theorem splitOnChar_ne_nil (sep : Char) : ∀ cs : List Char, splitOnChar sep cs ≠ []
  | [] => by simp [splitOnChar]
  | c :: cs => by
      by_cases h : c = sep
      · simp [splitOnChar, h]
      · simp only [splitOnChar, h, if_false]
        cases hs : splitOnChar sep cs <;> simp

theorem splitKey_ne_nil (key : String) : splitKey key ≠ [] := by
  unfold splitKey
  simp [splitOnChar_ne_nil]

theorem assocGet_set_self {α β : Type} [DecidableEq α]
    (m : List (α × β)) (k : α) (v : β) :
    assocGet (assocSet m k v) k = some v := by
  induction m with
  | nil => simp [assocSet, assocGet]
  | cons p rest ih =>
      obtain ⟨k0, v0⟩ := p
      by_cases h : k = k0
      · simp [assocSet, assocGet, h]
      · simp [assocSet, assocGet, h, ih]

theorem assocGet_set_ne {α β : Type} [DecidableEq α]
    (m : List (α × β)) (k k' : α) (v : β) (h : k' ≠ k) :
    assocGet (assocSet m k v) k' = assocGet m k' := by
  induction m with
  | nil => simp [assocSet, assocGet, h]
  | cons p rest ih =>
      obtain ⟨k0, v0⟩ := p
      by_cases h0 : k = k0
      · subst h0
        simp [assocSet, assocGet, h]
      · by_cases h1 : k' = k0
        · simp [assocSet, assocGet, h0, h1]
        · simp [assocSet, assocGet, h0, h1, ih]

theorem assocGet_of_has_false {α β : Type} [DecidableEq α]
    {m : List (α × β)} {k : α} (h : assocHas m k = false) :
    assocGet m k = none := by
  unfold assocHas at h
  cases hg : assocGet m k with
  | none => rfl
  | some w => rw [hg] at h; simp at h

theorem assocGet_del_self {α β : Type} [DecidableEq α]
    (m : List (α × β)) (k : α) (h : keysND m = true) :
    assocGet (assocDel m k) k = none := by
  induction m with
  | nil => simp [assocDel, assocGet]
  | cons p rest ih =>
      obtain ⟨k0, v0⟩ := p
      simp only [keysND, Bool.and_eq_true, Bool.not_eq_true'] at h
      obtain ⟨h1, h2⟩ := h
      by_cases h0 : k = k0
      · subst h0
        simpa [assocDel] using assocGet_of_has_false h1
      · simp [assocDel, assocGet, h0, ih h2]

theorem wfList_get {m : List (String × JVal)} {k : String} {w : JVal}
    (hm : JVal.wfList m = true) (hg : assocGet m k = some w) :
    w.wf = true := by
  induction m with
  | nil => simp [assocGet] at hg
  | cons p rest ih =>
      obtain ⟨k0, v0⟩ := p
      simp only [JVal.wfList, Bool.and_eq_true] at hm
      obtain ⟨hv, hr⟩ := hm
      by_cases h0 : k = k0
      · simp only [assocGet, h0, if_pos rfl] at hg
        cases hg
        exact hv
      · simp only [assocGet, if_neg h0] at hg
        exact ih hr hg

theorem getPath_notObj (w : JVal) (ks : List String)
    (hw : w.isObj = false) (hks : ks ≠ []) : getPath w ks = none := by
  cases ks with
  | nil => exact absurd rfl hks
  | cons k ks =>
      cases w with
      | num n => rfl
      | str s => rfl
      | obj m => simp [JVal.isObj] at hw

theorem getPath_setPath :
    ∀ (ks : List String) (v : JVal) (m : List (String × JVal)), ks ≠ [] →
      getPath (JVal.obj (setPath ks v m)) ks = some v
  | [], _, _, h => absurd rfl h
  | [k], v, m, _ => by
      simp [setPath, getPath, assocGet_set_self]
  | k :: k2 :: rest, v, m, _ => by
      simp only [setPath, getPath, assocGet_set_self]
      exact getPath_setPath (k2 :: rest) v _ (by simp)

theorem getPath_delPath :
    ∀ (ks : List String) (m : List (String × JVal)), ks ≠ [] →
      JVal.wf (JVal.obj m) = true →
      getPath (JVal.obj (delPath ks m)) ks = none
  | [], _, h, _ => absurd rfl h
  | [k], m, _, hwf => by
      simp only [JVal.wf, Bool.and_eq_true] at hwf
      simp [delPath, getPath, assocGet_del_self m k hwf.1]
  | k :: k2 :: rest, m, _, hwf => by
      simp only [JVal.wf, Bool.and_eq_true] at hwf
      cases hg : assocGet m k with
      | none => simp [delPath, getPath, hg]
      | some w =>
          cases w with
          | obj m2 =>
              simp only [delPath, hg, getPath, assocGet_set_self]
              exact getPath_delPath (k2 :: rest) m2 (by simp)
                (wfList_get hwf.2 hg)
          | num n =>
              simp [delPath, getPath, hg,
                getPath_notObj (JVal.num n) (k2 :: rest) rfl (by simp)]
          | str s =>
              simp [delPath, getPath, hg,
                getPath_notObj (JVal.str s) (k2 :: rest) rfl (by simp)]

theorem getPath_setPath_obj :
    ∀ (ks : List String) (v : JVal) (m : List (String × JVal)) (j : Nat),
      j < ks.length →
      ∃ m2, getPath (JVal.obj (setPath ks v m)) (ks.take j) = some (JVal.obj m2)
  | ks, v, m, 0, _ => ⟨setPath ks v m, rfl⟩
  | [], _, _, j + 1, h => absurd h (by simp)
  | [_], _, _, j + 1, h => by
      simp only [List.length_singleton] at h
      exact absurd h (by omega)
  | k :: k2 :: rest, v, m, j + 1, h => by
      simp only [List.take_succ_cons, setPath, getPath, assocGet_set_self]
      exact getPath_setPath_obj (k2 :: rest) v _ j (by simpa using h)

theorem getPath_setPath_apart :
    ∀ (a b : List String) (v : JVal),
      initSeg a b = false → initSeg b a = false →
      getPath (JVal.obj (setPath a v [])) b = none
  | [], _, _, h1, _ => by simp [initSeg] at h1
  | _ :: _, [], _, _, h2 => by simp [initSeg] at h2
  | [x], y :: bs, v, h1, h2 => by
      by_cases hxy : x = y
      · subst hxy
        simp [initSeg] at h1
      · have hyx : ¬y = x := fun h => hxy h.symm
        simp [setPath, assocSet, getPath, assocGet, hyx]
  | x :: x2 :: as, y :: bs, v, h1, h2 => by
      by_cases hxy : x = y
      · subst hxy
        simp only [initSeg, beq_self_eq_true, Bool.true_and] at h1 h2
        cases bs with
        | nil => simp [initSeg] at h2
        | cons b2 bs2 =>
            show getPath
                (JVal.obj (assocSet [] x (JVal.obj (setPath (x2 :: as) v []))))
                (x :: b2 :: bs2) = none
            simp only [getPath, assocSet, assocGet, if_pos rfl]
            exact getPath_setPath_apart (x2 :: as) (b2 :: bs2) v h1 h2
      · have hyx : ¬y = x := fun h => hxy h.symm
        simp [setPath, assocSet, getPath, assocGet, hyx]

theorem getPath_setPath_frame :
    ∀ (a b : List String) (v : JVal) (m : List (String × JVal)),
      initSeg a b = false → initSeg b a = false →
      getPath (JVal.obj (setPath a v m)) b = getPath (JVal.obj m) b
  | [], _, _, _, h1, _ => by simp [initSeg] at h1
  | _ :: _, [], _, _, _, h2 => by simp [initSeg] at h2
  | [x], y :: bs, v, m, h1, h2 => by
      by_cases hxy : x = y
      · subst hxy
        simp [initSeg] at h1
      · have hyx : y ≠ x := fun h => hxy h.symm
        simp [setPath, getPath, assocGet_set_ne m x y v hyx]
  | x :: x2 :: as, y :: bs, v, m, h1, h2 => by
      by_cases hxy : x = y
      · subst hxy
        simp only [initSeg, beq_self_eq_true, Bool.true_and] at h1 h2
        cases bs with
        | nil => simp [initSeg] at h2
        | cons b2 bs2 =>
            have hstep : getPath (JVal.obj (setPath (x :: x2 :: as) v m))
                (x :: b2 :: bs2) =
                getPath (JVal.obj (setPath (x2 :: as) v
                  (match assocGet m x with
                    | some (JVal.obj m2) => m2
                    | _ => []))) (b2 :: bs2) := by
              simp only [setPath, getPath, assocGet_set_self]
            rw [hstep]
            cases hg : assocGet m x with
            | none =>
                have hR : getPath (JVal.obj m) (x :: b2 :: bs2) = none := by
                  simp [getPath, hg]
                rw [hR]
                exact getPath_setPath_apart (x2 :: as) (b2 :: bs2) v h1 h2
            | some w =>
                cases w with
                | obj m2 =>
                    have hR : getPath (JVal.obj m) (x :: b2 :: bs2) =
                        getPath (JVal.obj m2) (b2 :: bs2) := by
                      simp [getPath, hg]
                    rw [hR]
                    exact getPath_setPath_frame (x2 :: as) (b2 :: bs2) v m2 h1 h2
                | num n =>
                    have hR : getPath (JVal.obj m) (x :: b2 :: bs2) = none := by
                      simp [getPath, hg,
                        getPath_notObj (JVal.num n) (b2 :: bs2) rfl (by simp)]
                    rw [hR]
                    exact getPath_setPath_apart (x2 :: as) (b2 :: bs2) v h1 h2
                | str s =>
                    have hR : getPath (JVal.obj m) (x :: b2 :: bs2) = none := by
                      simp [getPath, hg,
                        getPath_notObj (JVal.str s) (b2 :: bs2) rfl (by simp)]
                    rw [hR]
                    exact getPath_setPath_apart (x2 :: as) (b2 :: bs2) v h1 h2
      · have hyx : y ≠ x := fun h => hxy h.symm
        simp only [setPath]
        simp [getPath, assocGet_set_ne m x y _ hyx]

/-- C1: for the ConfigStore, get after set on any dotted key (including
multi-segment keys) returns the stored value, and get after delete on that key
returns the caller-supplied default.  The hypothesis is the Python dict
representation invariant (pairwise-distinct keys in every reachable dict). -/
theorem claim_C1_config_get_set_delete (cfg : List (String × JVal)) (key : String)
    (v dflt : JVal) (hwf : JVal.wf (JVal.obj cfg) = true) :
    cmGet (cmSet cfg key v) key dflt = v ∧
      cmGet (cmDel cfg key) key dflt = dflt := by
  constructor
  · unfold cmGet cmSet
    rw [getPath_setPath (splitKey key) v cfg (splitKey_ne_nil key)]
  · unfold cmGet cmDel
    rw [getPath_delPath (splitKey key) cfg (splitKey_ne_nil key) hwf]

theorem claim_C1_config_get_set_delete_witness :
    JVal.wf (JVal.obj [("a", JVal.obj [("b", JVal.num 3)])]) = true ∧
      cmGet (cmSet [("a", JVal.obj [("b", JVal.num 3)])] "a.b.c" (JVal.num 7))
        "a.b.c" (JVal.str "d") = JVal.num 7 ∧
      cmGet (cmDel [("a", JVal.obj [("b", JVal.num 3)])] "a.b") "a.b"
        (JVal.str "d") = JVal.str "d" := by
  refine ⟨by decide, ?_, ?_⟩
  · exact (claim_C1_config_get_set_delete [("a", JVal.obj [("b", JVal.num 3)])]
      "a.b.c" (JVal.num 7) (JVal.str "d") (by decide)).1
  · exact (claim_C1_config_get_set_delete [("a", JVal.obj [("b", JVal.num 3)])]
      "a.b" (JVal.num 7) (JVal.str "d") (by decide)).2

/-- C4 (counterexample): `load` on a missing file leaves a nonempty prior
in-memory state untouched instead of replacing it with an empty mapping, so
the claim fails at this input. -/
theorem claim_C4_counterexample :
    cmLoad FileState.missing [("a", JVal.num 1)] = [("a", JVal.num 1)] ∧
      [("a", JVal.num 1)] ≠ ([] : List (String × JVal)) :=
  ⟨rfl, by simp⟩

/-- C4 (amended): `load` replaces the in-memory state with the parsed document
when the file exists and parses, resets it to an empty mapping when the file
exists but is corrupt, and leaves the prior state unchanged when the file is
missing; totality of `cmLoad` models that no exception propagates. -/
theorem claim_C4_load_amended (cur doc : List (String × JVal)) :
    cmLoad (FileState.parsed doc) cur = doc ∧
      cmLoad FileState.corrupt cur = [] ∧
      cmLoad FileState.missing cur = cur :=
  ⟨rfl, rfl, rfl⟩

/-- C8: setting a dotted key whose path currently runs through a non-mapping
intermediate value succeeds (the function is total, modelling that no
exception is raised): the scalar intermediate is overwritten so that every
proper prefix of the key now resolves to a mapping, and get of the full key
returns the stored value. -/
theorem claim_C8_set_through_scalar (cfg : List (String × JVal)) (key : String)
    (v dflt : JVal) (i : Nat) (w : JVal)
    (hi : i + 1 < (splitKey key).length)
    (hw : getPath (JVal.obj cfg) ((splitKey key).take (i + 1)) = some w)
    (hscalar : w.isObj = false) :
    cmGet (cmSet cfg key v) key dflt = v ∧
      ∀ j, j < (splitKey key).length →
        ∃ m2, getPath (JVal.obj (cmSet cfg key v)) ((splitKey key).take j) =
          some (JVal.obj m2) := by
  constructor
  · unfold cmGet cmSet
    rw [getPath_setPath (splitKey key) v cfg (splitKey_ne_nil key)]
  · intro j hj
    exact getPath_setPath_obj (splitKey key) v cfg j hj

theorem claim_C8_set_through_scalar_witness :
    (0 + 1 < (splitKey "a.b").length ∧
        getPath (JVal.obj [("a", JVal.num 5)]) ((splitKey "a.b").take (0 + 1)) =
          some (JVal.num 5) ∧
        (JVal.num 5).isObj = false) ∧
      cmGet (cmSet [("a", JVal.num 5)] "a.b" (JVal.num 7)) "a.b" (JVal.str "d") =
        JVal.num 7 := by
  refine ⟨⟨by decide, rfl, rfl⟩, ?_⟩
  exact (claim_C8_set_through_scalar [("a", JVal.num 5)] "a.b" (JVal.num 7)
    (JVal.str "d") 0 (JVal.num 5) (by decide) rfl rfl).1

/-- C10 (frame property of set): when neither key's segment sequence is an
initial run of the other's, setting the first key leaves get of the second
key (with any default) unchanged. -/
theorem claim_C10_set_frame (cfg : List (String × JVal)) (k1 k2 : String)
    (v dflt : JVal)
    (h1 : initSeg (splitKey k1) (splitKey k2) = false)
    (h2 : initSeg (splitKey k2) (splitKey k1) = false) :
    cmGet (cmSet cfg k1 v) k2 dflt = cmGet cfg k2 dflt := by
  unfold cmGet cmSet
  rw [getPath_setPath_frame (splitKey k1) (splitKey k2) v cfg h1 h2]

theorem claim_C10_set_frame_witness :
    (initSeg (splitKey "a.b") (splitKey "a.c") = false ∧
        initSeg (splitKey "a.c") (splitKey "a.b") = false) ∧
      cmGet (cmSet [("a", JVal.num 1)] "a.b" (JVal.num 7)) "a.c" (JVal.str "d") =
        cmGet [("a", JVal.num 1)] "a.c" (JVal.str "d") := by
  refine ⟨⟨by decide, by decide⟩, ?_⟩
  exact claim_C10_set_frame [("a", JVal.num 1)] "a.b" "a.c" (JVal.num 7)
    (JVal.str "d") (by decide) (by decide)

theorem strLt_irrefl : ∀ a : List Char, strLt a a = false
  | [] => rfl
  | c :: cs => by simp [strLt, strLt_irrefl cs]

theorem strLt_trans : ∀ a b c : List Char,
    strLt a b = true → strLt b c = true → strLt a c = true
  | [], [], _, hab, _ => by simp [strLt] at hab
  | [], _ :: _, [], _, hbc => by simp [strLt] at hbc
  | [], _ :: _, _ :: _, _, _ => by simp [strLt]
  | _ :: _, [], _, hab, _ => by simp [strLt] at hab
  | _ :: _, _ :: _, [], _, hbc => by simp [strLt] at hbc
  | x :: xs, y :: ys, z :: zs, hab, hbc => by
      simp only [strLt] at hab hbc ⊢
      by_cases hxy : x = y
      · subst hxy
        by_cases hxz : x = z
        · subst hxz
          rw [if_pos rfl] at hab hbc ⊢
          exact strLt_trans xs ys zs hab hbc
        · rw [if_neg hxz] at hbc ⊢
          exact hbc
      · by_cases hyz : y = z
        · subst hyz
          rw [if_neg hxy] at hab ⊢
          exact hab
        · rw [if_neg hxy] at hab
          rw [if_neg hyz] at hbc
          simp only [decide_eq_true_eq] at hab hbc
          have hxz : x < z := lt_trans hab hbc
          rw [if_neg (ne_of_lt hxz)]
          simp [hxz]

theorem strLt_trichot : ∀ a b : List Char,
    strLt a b = true ∨ a = b ∨ strLt b a = true
  | [], [] => Or.inr (Or.inl rfl)
  | [], _ :: _ => Or.inl (by simp [strLt])
  | _ :: _, [] => Or.inr (Or.inr (by simp [strLt]))
  | x :: xs, y :: ys => by
      by_cases hxy : x = y
      · subst hxy
        rcases strLt_trichot xs ys with h | h | h
        · exact Or.inl (by simp [strLt, h])
        · exact Or.inr (Or.inl (by rw [h]))
        · exact Or.inr (Or.inr (by simp [strLt, h]))
      · rcases lt_trichotomy x y with h | h | h
        · exact Or.inl (by simp [strLt, hxy, h])
        · exact absurd h hxy
        · refine Or.inr (Or.inr ?_)
          have hyx : ¬y = x := fun hh => hxy hh.symm
          simp [strLt, hyx, h]

instance : IsTotal AppInfo keyLEP where
  total := by
    intro x y
    unfold keyLEP keyLE
    by_cases ht : x.type.data = y.type.data
    · rw [if_pos ht, if_pos ht.symm]
      simp only [Bool.or_eq_true, beq_iff_eq]
      rcases strLt_trichot x.name.data y.name.data with h | h | h
      · exact Or.inl (Or.inl h)
      · exact Or.inl (Or.inr h)
      · exact Or.inr (Or.inl h)
    · have ht2 : ¬y.type.data = x.type.data := fun hh => ht hh.symm
      rw [if_neg ht, if_neg ht2]
      rcases strLt_trichot x.type.data y.type.data with h | h | h
      · exact Or.inl h
      · exact absurd h ht
      · exact Or.inr h

instance : IsTrans AppInfo keyLEP where
  trans := by
    intro x y z hxy hyz
    unfold keyLEP keyLE at hxy hyz ⊢
    by_cases h1 : x.type.data = y.type.data
    · by_cases h2 : y.type.data = z.type.data
      · rw [if_pos h1] at hxy
        rw [if_pos h2] at hyz
        rw [if_pos (h1.trans h2)]
        simp only [Bool.or_eq_true, beq_iff_eq] at hxy hyz ⊢
        rcases hxy with hxy | hxy <;> rcases hyz with hyz | hyz
        · exact Or.inl (strLt_trans _ _ _ hxy hyz)
        · rw [← hyz]
          exact Or.inl hxy
        · rw [hxy]
          exact Or.inl hyz
        · exact Or.inr (hxy.trans hyz)
      · rw [if_pos h1] at hxy
        rw [if_neg h2] at hyz
        have h3 : ¬x.type.data = z.type.data := fun hh => h2 (h1.symm.trans hh)
        rw [if_neg h3, h1]
        exact hyz
    · by_cases h2 : y.type.data = z.type.data
      · rw [if_neg h1] at hxy
        have h3 : ¬x.type.data = z.type.data := fun hh => h1 (hh.trans h2.symm)
        rw [if_neg h3, ← h2]
        exact hxy
      · rw [if_neg h1] at hxy
        rw [if_neg h2] at hyz
        have h4 : strLt x.type.data z.type.data = true := strLt_trans _ _ _ hxy hyz
        have h3 : ¬x.type.data = z.type.data := by
          intro hh
          rw [hh] at hxy
          have h5 := strLt_trans _ _ _ hxy hyz
          rw [strLt_irrefl] at h5
          exact absurd h5 (by simp)
        rw [if_neg h3]
        exact h4

theorem assocHas_set_ne {α β : Type} [DecidableEq α]
    (m : List (α × β)) (k k' : α) (v : β) (h : k' ≠ k) :
    assocHas (assocSet m k v) k' = assocHas m k' := by
  unfold assocHas
  rw [assocGet_set_ne m k k' v h]

theorem keysND_set {α β : Type} [DecidableEq α]
    (m : List (α × β)) (k : α) (v : β) (h : keysND m = true) :
    keysND (assocSet m k v) = true := by
  induction m with
  | nil => simp [assocSet, keysND, assocHas, assocGet]
  | cons p rest ih =>
      obtain ⟨k0, v0⟩ := p
      simp only [keysND, Bool.and_eq_true, Bool.not_eq_true'] at h
      obtain ⟨h1, h2⟩ := h
      by_cases h0 : k = k0
      · subst h0
        simp [assocSet, keysND, h1, h2]
      · simp only [assocSet, if_neg h0, keysND, Bool.and_eq_true,
          Bool.not_eq_true']
        constructor
        · rw [assocHas_set_ne rest k k0 v (fun hh => h0 hh.symm)]
          exact h1
        · exact ih h2

theorem assocHas_del_le {α β : Type} [DecidableEq α]
    (m : List (α × β)) (k k' : α) (h : assocHas m k' = false) :
    assocHas (assocDel m k) k' = false := by
  induction m with
  | nil => simp [assocDel, assocHas, assocGet]
  | cons p rest ih =>
      obtain ⟨k0, v0⟩ := p
      by_cases hk : k' = k0
      · subst hk
        simp [assocHas, assocGet] at h
      · have h' : assocHas rest k' = false := by
          simpa [assocHas, assocGet, hk] using h
        by_cases h0 : k = k0
        · simpa [assocDel, h0] using h'
        · simpa [assocDel, h0, assocHas, assocGet, hk] using ih h'

theorem keysND_del {α β : Type} [DecidableEq α]
    (m : List (α × β)) (k : α) (h : keysND m = true) :
    keysND (assocDel m k) = true := by
  induction m with
  | nil => simp [assocDel, keysND]
  | cons p rest ih =>
      obtain ⟨k0, v0⟩ := p
      simp only [keysND, Bool.and_eq_true, Bool.not_eq_true'] at h
      obtain ⟨h1, h2⟩ := h
      by_cases h0 : k = k0
      · simpa [assocDel, h0] using h2
      · simp only [assocDel, if_neg h0, keysND, Bool.and_eq_true,
          Bool.not_eq_true']
        exact ⟨assocHas_del_le rest k k0 h1, ih h2⟩

/-- C2: any entry-file text containing a terminal-ui marker (case-insensitive,
anywhere) is classified `tui`, regardless of graphical, command-line or web
markers and of the directory-structure clues: the tui check is the first
branch of `_determine_app_type`. -/
theorem claim_C2_tui_priority (content : String) (hasTemplates hasStatic : Bool)
    (h : hasMarker (lowerStr content) tuiMarkers = true) :
    determineAppType content hasTemplates hasStatic = "tui" := by
  unfold determineAppType
  simp [h]

theorem claim_C2_tui_priority_witness :
    hasMarker (lowerStr "from Textual\nimport tkinter\nimport typer\nfrom fastapi")
        tuiMarkers = true ∧
      determineAppType "from Textual\nimport tkinter\nimport typer\nfrom fastapi"
        true true = "tui" :=
  ⟨by decide, claim_C2_tui_priority _ true true (by decide)⟩

/-- C9: one discovery scan returns its descriptors sorted ascending by the
`(category, name)` key (`keyLEP` is Python's tuple order on `(type, name)`);
`discoverApps` is a function of the filesystem state, so the result is
deterministic for a fixed state. -/
theorem claim_C9_scan_sorted (fs : MonoFS) :
    List.Sorted keyLEP (discoverApps fs) := by
  unfold discoverApps
  exact List.sorted_insertionSort keyLEP _

/-- C7: stopping a name with no registered handle returns false and leaves the
supervisor state (in particular the handle map) unchanged; totality of
`stopApp` models that no exception is raised. -/
theorem claim_C7_stop_unregistered (s : SupState) (name : String)
    (h : assocGet s.handles name = none) :
    stopApp name s = (s, false) := by
  unfold stopApp
  rw [h]

theorem claim_C7_stop_unregistered_witness :
    assocGet initSup.handles "ghost" = none ∧
      stopApp "ghost" initSup = (initSup, false) :=
  ⟨rfl, claim_C7_stop_unregistered initSup "ghost" rfl⟩

/-- C3 (counterexample): starting a second run for a name neither stops nor
detects termination of the prior process.  After the first start, process 0 is
live and registered under `alpha`; after the second start, the new process 1
is registered, while process 0 is still live — merely unregistered. -/
theorem claim_C3_counterexample :
    assocGet supEx1.handles "alpha" = some 0 ∧ isLive supEx1 0 = true ∧
      assocGet supEx2.handles "alpha" = some 1 ∧ isLive supEx2 0 = true ∧
      isLive supEx2 1 = true := by
  decide

/-- C3 (amended): starting a second run for a name simply overwrites the
registered handle with the new process, leaving the prior process's liveness
untouched (it is neither stopped nor checked); the handle map itself keeps at
most one binding per name, and both start and stop preserve that. -/
theorem claim_C3_start_overwrites_amended (s : SupState) (name : String) :
    assocGet ((runApp true name s).1).handles name = some s.nextPid ∧
      (∀ pid, pid ≠ s.nextPid →
        isLive ((runApp true name s).1) pid = isLive s pid) ∧
      (keysND s.handles = true →
        keysND ((runApp true name s).1).handles = true ∧
          keysND ((stopApp name s).1).handles = true) := by
  refine ⟨?_, ?_, ?_⟩
  · simp [runApp, assocGet_set_self]
  · intro pid hp
    simp [runApp, isLive, assocGet, hp]
  · intro h
    constructor
    · simpa [runApp] using keysND_set s.handles name s.nextPid h
    · unfold stopApp
      cases hg : assocGet s.handles name with
      | some pid => simpa using keysND_del s.handles name h
      | none => simpa using h

theorem claim_C3_start_overwrites_amended_witness :
    assocGet ((runApp true "alpha" supEx1).1).handles "alpha" = some 1 ∧
      isLive ((runApp true "alpha" supEx1).1) 0 = isLive supEx1 0 := by
  refine ⟨(claim_C3_start_overwrites_amended supEx1 "alpha").1, ?_⟩
  exact (claim_C3_start_overwrites_amended supEx1 "alpha").2.1 0 (by decide)

theorem analyzeApp_name {e : AppDirEntry} {a : AppInfo}
    (h : analyzeApp e = some a) : a.name = e.name := by
  unfold analyzeApp at h
  cases hm : e.hasMainFile with
  | false => rw [hm] at h; simp at h
  | true =>
      rw [hm] at h
      cases hc : e.mainContent with
      | none => rw [hc] at h; simp at h
      | some content =>
          rw [hc] at h
          simp only [if_true] at h
          cases h
          rfl

theorem analyzeScript_name {s0 : ScriptEntry} {a : AppInfo}
    (h : analyzeScript s0 = some a) : a.name = s0.stem := by
  unfold analyzeScript at h
  cases hc : s0.content with
  | none => rw [hc] at h; simp at h
  | some content =>
      rw [hc] at h
      cases h
      rfl

theorem names_sublist_analyzeApp : ∀ l : List AppDirEntry,
    List.Sublist ((l.filterMap analyzeApp).map AppInfo.name)
      (l.map AppDirEntry.name)
  | [] => List.Sublist.refl []
  | e :: rest => by
      cases h : analyzeApp e with
      | none =>
          simp only [List.filterMap_cons, h, List.map_cons]
          exact List.Sublist.cons _ (names_sublist_analyzeApp rest)
      | some a =>
          simp only [List.filterMap_cons, h, List.map_cons]
          rw [analyzeApp_name h]
          exact List.Sublist.cons₂ _ (names_sublist_analyzeApp rest)

theorem names_sublist_analyzeScript : ∀ l : List ScriptEntry,
    List.Sublist ((l.filterMap analyzeScript).map AppInfo.name)
      (l.map ScriptEntry.stem)
  | [] => List.Sublist.refl []
  | s0 :: rest => by
      cases h : analyzeScript s0 with
      | none =>
          simp only [List.filterMap_cons, h, List.map_cons]
          exact List.Sublist.cons _ (names_sublist_analyzeScript rest)
      | some a =>
          simp only [List.filterMap_cons, h, List.map_cons]
          rw [analyzeScript_name h]
          exact List.Sublist.cons₂ _ (names_sublist_analyzeScript rest)

/-- C5 (counterexample): an application directory and a script file with the
same base name yield two descriptors sharing one name in a single scan, so the
scan result's names are not pairwise distinct. -/
theorem claim_C5_counterexample :
    (discoverApps fsC5).map AppInfo.name = ["demo", "demo"] ∧
      ¬ ((discoverApps fsC5).map AppInfo.name).Nodup :=
  ⟨by decide, by decide⟩

/-- C5 (amended): within one kind the names are pairwise distinct — no two
descriptors from the applications directory share a name, and no two from the
scripts directory share a name (each descriptor inherits the name of its
directory entry, and directory listings are duplicate-free); but a name may be
shared between an application and a script. -/
theorem claim_C5_unique_within_kind_amended (fs : MonoFS)
    (h1 : (fs.appsDirs.map AppDirEntry.name).Nodup)
    (h2 : (fs.scripts.map ScriptEntry.stem).Nodup) :
    ((discoveredApps fs).map AppInfo.name).Nodup ∧
      ((discoveredScripts fs).map AppInfo.name).Nodup := by
  constructor
  · unfold discoveredApps
    exact List.Nodup.sublist
      ((names_sublist_analyzeApp _).trans
        (List.Sublist.map _ (List.filter_sublist _))) h1
  · unfold discoveredScripts
    exact List.Nodup.sublist
      ((names_sublist_analyzeScript _).trans
        (List.Sublist.map _ (List.filter_sublist _))) h2

theorem claim_C5_unique_within_kind_amended_witness :
    ((fsC5.appsDirs.map AppDirEntry.name).Nodup ∧
        (fsC5.scripts.map ScriptEntry.stem).Nodup) ∧
      ((discoveredApps fsC5).map AppInfo.name).Nodup ∧
        ((discoveredScripts fsC5).map AppInfo.name).Nodup :=
  ⟨⟨by decide, by decide⟩,
    claim_C5_unique_within_kind_amended fsC5 (by decide) (by decide)⟩

theorem analyzeApp_port_web {e : AppDirEntry} {a : AppInfo}
    (h : analyzeApp e = some a) (hp : a.port.isSome = true) : a.type = "web" := by
  unfold analyzeApp at h
  cases hm : e.hasMainFile with
  | false => rw [hm] at h; simp at h
  | true =>
      rw [hm] at h
      cases hc : e.mainContent with
      | none => rw [hc] at h; simp at h
      | some content =>
          rw [hc] at h
          simp only [if_true] at h
          cases h
          by_cases hw :
              determineAppType content e.hasTemplatesDir e.hasStaticDir = "web"
          · exact hw
          · exfalso
            have hp' : (if determineAppType content e.hasTemplatesDir
                e.hasStaticDir = "web" then extractPort content
                else none).isSome = true := hp
            rw [if_neg hw] at hp'
            simp at hp'

theorem analyzeScript_port {s0 : ScriptEntry} {a : AppInfo}
    (h : analyzeScript s0 = some a) : a.port = none := by
  unfold analyzeScript at h
  cases hc : s0.content with
  | none => rw [hc] at h; simp at h
  | some content =>
      rw [hc] at h
      cases h
      rfl

/-- C6 (counterexample): the first port regex captures the digits of `port=0`,
so the scan produces a web descriptor whose port is present with value 0 —
which is not a positive integer. -/
theorem claim_C6_counterexample :
    (discoverApps fsC6).map AppInfo.type = ["web"] ∧
      (discoverApps fsC6).map AppInfo.port = [some 0] ∧ ¬(0 : Nat) > 0 :=
  ⟨by decide, by decide, by decide⟩

/-- C6 (amended): in every descriptor one scan produces, the port field is
present only when the category is web; when present it is a nonnegative
integer that may be zero (the counterexample extracts 0 from `port=0`). -/
theorem claim_C6_port_only_web_amended (fs : MonoFS) (d : AppInfo)
    (hd : d ∈ discoverApps fs) (hp : d.port.isSome = true) : d.type = "web" := by
  unfold discoverApps at hd
  rw [List.Perm.mem_iff (List.perm_insertionSort keyLEP _)] at hd
  rw [List.mem_append] at hd
  rcases hd with hd | hd
  · obtain ⟨e, he, hae⟩ := List.mem_filterMap.mp hd
    exact analyzeApp_port_web hae hp
  · obtain ⟨s0, hs, has⟩ := List.mem_filterMap.mp hd
    rw [analyzeScript_port has] at hp
    simp at hp

theorem claim_C6_port_only_web_amended_witness :
    (dC6w ∈ discoverApps fsC6w ∧ dC6w.port.isSome = true) ∧ dC6w.type = "web" :=
  ⟨⟨by decide, by decide⟩,
    claim_C6_port_only_web_amended fsC6w dC6w (by decide) (by decide)⟩
